import Mathlib

/-!
Verification of the geotile hexagon pipeline.

This file gives a shallow embedding, over exact rational arithmetic, of the
geometric core of the repository: the flat-top hexagon polygon
(`Hexagon.polygon` in `geotiles/__init__.py` and `Hexagon.polygon_utm` in
`geotiles.py`), the neighbour-ring enumeration (`Hexagon.get_neighbours`),
the grid distributor (`distribute_hexagons`), the mesh normalization and
extrusion (`compute_normalization_params`, `apply_normalization`,
`export_mesh`), the street fetch and overlay logic (`_fetch_streets`,
`fetch_data`), the global elevation range accumulated in `main`, and the
per-hexagon error flow.  Python floats are modelled by `ℚ`; geometry-library
calls the code delegates to (line/polygon intersection, emptiness tests) are
abstracted as function parameters.  The `while True` loop of
`distribute_hexagons` is modelled with explicit fuel, and termination is a
theorem stating that some fuel suffices.
-/

/-- Planar point, a pair of rationals. -/
abbrev Pt := ℚ × ℚ

/-- Twice the signed area of triangle `o a b`; positive iff `b` lies strictly
to the left of the directed line from `o` to `a`. -/
def cross2 (o a b : Pt) : ℚ := (a.1 - o.1) * (b.2 - o.2) - (a.2 - o.2) * (b.1 - o.1)

/-- Consecutive-vertex edges of a polygon given as a closed vertex list. -/
def edgesOf (l : List Pt) : List (Pt × Pt) := l.zip l.tail

/-- Membership (interior or boundary) in a convex polygon whose closed vertex
list is oriented counter-clockwise: the point is on or to the left of every
directed edge. -/
def insideCl (poly : List Pt) (p : Pt) : Prop := ∀ e ∈ edgesOf poly, 0 ≤ cross2 e.1 e.2 p

/-- Strict interior membership in a convex counter-clockwise polygon. -/
def insideOpen (poly : List Pt) (p : Pt) : Prop := ∀ e ∈ edgesOf poly, 0 < cross2 e.1 e.2 p

/-- Axis-aligned bounding box `(minx, miny, maxx, maxy)`, as returned by
`shapely`'s `geom.bounds`. -/
structure Bounds where
  minx : ℚ
  miny : ℚ
  maxx : ℚ
  maxy : ℚ
deriving DecidableEq

/-- Bounding box of a vertex list (`geom.bounds`); `(0,0,0,0)` on the empty
list, which the source never hits. -/
def boundsOf : List Pt → Bounds
  | [] => ⟨0, 0, 0, 0⟩
  | p :: ps =>
    ⟨(ps.map Prod.fst).foldr min p.1, (ps.map Prod.snd).foldr min p.2,
     (ps.map Prod.fst).foldr max p.1, (ps.map Prod.snd).foldr max p.2⟩

/-- Width of a geometry's bounding box. -/
def widthOf (l : List Pt) : ℚ := (boundsOf l).maxx - (boundsOf l).minx

/-- Height (vertical extent) of a geometry's bounding box.  For the flat-top
hexagon this is the distance between the top and bottom horizontal edges. -/
def vertExtentOf (l : List Pt) : ℚ := (boundsOf l).maxy - (boundsOf l).miny

/-- A hexagonal tile: centre in the projected frame and circumradius, as in
both `Hexagon` classes of the source. -/
structure Hexagon where
  center : Pt
  size : ℚ
deriving DecidableEq

/-- The closed vertex ring of the flat-top hexagon built by
`Hexagon.polygon` / `Hexagon.polygon_utm`: six vertices plus the repeated
first vertex, exactly in source order. -/
def hexPolygon (x y s : ℚ) : List Pt :=
  [ (x - s/2, y + s), (x - s, y), (x - s/2, y - s), (x + s/2, y - s),
    (x + s, y), (x + s/2, y + s), (x - s/2, y + s) ]

/-- Source `Hexagon.polygon`. -/
def Hexagon.polygon (h : Hexagon) : List Pt := hexPolygon h.center.1 h.center.2 h.size

/-- Source `Hexagon.bbox`: `(x - s, y - s, x + s, y + s)`. -/
def Hexagon.bbox (h : Hexagon) : Bounds :=
  ⟨h.center.1 - h.size, h.center.2 - h.size, h.center.1 + h.size, h.center.2 + h.size⟩

/-- The six axial step directions of `Hexagon.get_neighbours`, in source
order. -/
def neighbourDirections : List (ℤ × ℤ) := [(1, -1), (1, 1), (0, 2), (-1, 1), (-1, -1), (0, -2)]

/-- One step of the neighbour walk: advance the position by the direction
scaled by `(3s/2, s)` and append the hexagon centred at the new position. -/
def neighbourStep (s : ℚ) (st : Pt × List Hexagon) (d : ℤ × ℤ) : Pt × List Hexagon :=
  ((st.1.1 + s * 3 / 2 * d.1, st.1.2 + s * d.2),
   st.2 ++ [⟨(st.1.1 + s * 3 / 2 * d.1, st.1.2 + s * d.2), s⟩])

/-- Source `Hexagon.get_neighbours`: starting from the centre offset by
`(-3s·d/2, -s·d)`, walk each of the six directions `tile_distance` times,
collecting a hexagon at every step. -/
def Hexagon.get_neighbours (h : Hexagon) (tile_distance : ℕ) : List Hexagon :=
  ((neighbourDirections.flatMap (fun d => List.replicate tile_distance d)).foldl
    (neighbourStep h.size)
    ((h.center.1 - h.size * 3 / 2 * tile_distance, h.center.2 - h.size * tile_distance),
     [])).2

/-- The body of the `while True` loop of `distribute_hexagons`, with explicit
fuel.  Each iteration appends the hexagon centred at `(x + s, y + s)`, then
advances `x` by the horizontal pitch `3s`; when the next hexagon would cross
`xmax`, the row wraps (odd rows offset by `3s/2`) and `y` advances by the
vertical pitch `s`; when the next row would cross `ymax` the accumulated list
is returned. -/
def distributeAux (s xmin xmax ymax : ℚ) : ℕ → ℚ → ℚ → Bool → List Hexagon → Option (List Hexagon)
  | 0, _, _, _, _ => none
  | fuel+1, x, y, ev, acc =>
    if x + 3*s + s > xmax then
      if y + s + s > ymax then some (acc ++ [⟨(x + s, y + s), s⟩])
      else distributeAux s xmin xmax ymax fuel (if ev then xmin + 3*s/2 else xmin) (y + s) (!ev)
        (acc ++ [⟨(x + s, y + s), s⟩])
    else distributeAux s xmin xmax ymax fuel (x + 3*s) y ev (acc ++ [⟨(x + s, y + s), s⟩])

/-- Source `distribute_hexagons(bbox, hexagon_size)` with `bbox = (left, bottom,
right, top)`; `none` means the supplied fuel ran out before the loop
returned. -/
def distribute_hexagons (bbox : ℚ × ℚ × ℚ × ℚ) (s : ℚ) (fuel : ℕ) : Option (List Hexagon) :=
  distributeAux s bbox.1 bbox.2.2.1 bbox.2.2.2 fuel bbox.1 bbox.2.1 true []

/-- Lattice description of the centres the distributor can produce: row `b`
and horizontal half-pitch index `a` relative to the grid origin
`(xmin + s, ymin + s)`. -/
def CenterAt (xmin ymin s : ℚ) (a b : ℤ) : Pt := (xmin + s + 3*s/2*a, ymin + s + s*b)

/-- A hexagon produced by the distributor: its size is `s` and its centre
lies on the brick-pattern lattice (`a` and `b` of equal parity). -/
def HexOk (xmin ymin s : ℚ) (h : Hexagon) : Prop :=
  h.size = s ∧ ∃ a b : ℤ, a % 2 = b % 2 ∧ h.center = CenterAt xmin ymin s a b

/-- Strict lexicographic order on points, bottom-to-top then left-to-right:
the order in which the distributor emits centres. -/
def lexLt (p q : Pt) : Prop := p.2 < q.2 ∨ (p.2 = q.2 ∧ p.1 < q.1)

/-- Number of placements left in a row starting at `x`. -/
def colsLeft (s xmax x : ℚ) : ℕ := (Int.ceil ((xmax - s - x) / (3*s))).toNat

/-- Number of row advances left starting at `y`. -/
def rowsLeft (s ymax y : ℚ) : ℕ := (Int.ceil ((ymax - s - y) / s)).toNat

/-- Sufficient fuel for `distributeAux` from state `(x, y)`. -/
def distributeFuel (s xmin xmax ymax x y : ℚ) : ℕ :=
  colsLeft s xmax x + (colsLeft s xmax xmin + 1) * rowsLeft s ymax y + 1

/-- The grid `distribute_hexagons((0, 0, 10, 4), 2)` computes. -/
def demoGrid : List Hexagon := [⟨(2, 2), 2⟩, ⟨(8, 2), 2⟩, ⟨(5, 4), 2⟩]

/-- The `NormalizationParams`: translation offsets and uniform scale of
`compute_normalization_params`. -/
structure NormParams where
  xoff : ℚ
  yoff : ℚ
  scale : ℚ
deriving DecidableEq

/-- Source `compute_normalization_params`: translate by the negated minimum corner
of the geometry's bounding box, scale by `target_size / max(width, height)`. -/
def compute_normalization_params (geom : List Pt) (target_size : ℚ) : NormParams :=
  ⟨-(boundsOf geom).minx, -(boundsOf geom).miny,
   target_size /
     max ((boundsOf geom).maxx - (boundsOf geom).minx)
         ((boundsOf geom).maxy - (boundsOf geom).miny)⟩

/-- Source `apply_normalization`: translate, then scale uniformly about the
origin. -/
def apply_normalization (geom : List Pt) (params : NormParams) : List Pt :=
  geom.map (fun p => (params.scale * (p.1 + params.xoff), params.scale * (p.2 + params.yoff)))

/-- A shapely geometry as `export_mesh` inspects it: `Polygon`,
`MultiPolygon`, or anything else (skipped). -/
inductive SGeom where
  | poly (rep : List Pt)
  | multiPoly (reps : List (List Pt))
  | otherGeom
deriving DecidableEq

/-- One extruded solid of the output mesh: footprint polygon, extrusion
height, and vertical translation. -/
structure Volume where
  footprint : List Pt
  height : ℚ
  zoff : ℚ
deriving DecidableEq

/-- The volumes one elevation row contributes in `export_mesh`: none when the
computed extrusion height `elevation - elevation_offset_m` is exactly zero,
one per polygon part otherwise, each normalized with the shared parameters,
extruded by `elevation_scale * height` and translated atop the base slab. -/
def bandVolumes (params : NormParams) (elevation_scale elevation_offset_m base_height_mm : ℚ)
    (row : SGeom × ℚ) : List Volume :=
  if row.2 - elevation_offset_m = 0 then []
  else
    match row.1 with
    | .poly rep =>
        [⟨apply_normalization rep params, elevation_scale * (row.2 - elevation_offset_m),
          base_height_mm⟩]
    | .multiPoly reps =>
        reps.map (fun rep =>
          ⟨apply_normalization rep params, elevation_scale * (row.2 - elevation_offset_m),
            base_height_mm⟩)
    | .otherGeom => []

/-- Source `Hexagon.export_mesh`: the base slab extruded from the normalized hexagon
polygon, followed by the volumes of each elevation row in order. -/
def export_mesh (h : Hexagon) (diameter_mm base_height_mm elevation_scale elevation_offset_m : ℚ)
    (elevation_gdf : List (SGeom × ℚ)) : List Volume :=
  ⟨apply_normalization h.polygon (compute_normalization_params h.polygon diameter_mm),
    base_height_mm, 0⟩ ::
  elevation_gdf.flatMap
    (bandVolumes (compute_normalization_params h.polygon diameter_mm) elevation_scale
      elevation_offset_m base_height_mm)

/-- The end-to-end example hexagon: centre `(0,0)`, size `650`. -/
def exampleHexagon : Hexagon := ⟨(0, 0), 650⟩

/-- The end-to-end example mesh: bands at `100 m` and `105 m` fully covering
the hexagon, base `10 mm`, scale `0.1/5 mm` per metre, offset `100 m`. -/
def exampleMesh : List Volume :=
  export_mesh exampleHexagon 100 10 (1/50) 100
    [(.poly (hexPolygon 0 0 650), 100), (.poly (hexPolygon 0 0 650), 105)]

/-- A road segment as fetched from the road-graph collaborator, before lane
normalization: the `lanes` attribute may be missing. -/
structure RawStreet (G : Type) where
  geom : G
  lanes : Option ℚ
deriving DecidableEq

/-- A road segment after `_fetch_streets`: lanes always present. -/
structure Street (G : Type) where
  geom : G
  lanes : ℚ
deriving DecidableEq

/-- A road segment after the elevation overlay of `fetch_data`. -/
structure TaggedStreet (G : Type) where
  geom : G
  lanes : ℚ
  elevation : ℚ
deriving DecidableEq

/-- The lane normalization of `_fetch_streets`: a missing `lanes` attribute
becomes `0`, no row is dropped. -/
def fetch_streets {G : Type} (raws : List (RawStreet G)) : List (Street G) :=
  raws.map (fun r => ⟨r.geom, r.lanes.getD 0⟩)

/-- The overlay loop of `fetch_data`: for every elevation row, intersect
every street with the band geometry, drop empty intersections, and tag the
survivors with the band's elevation.  The geometry intersection `inter` and
emptiness test `gIsEmpty` are the shapely calls the code delegates to. -/
def overlay_streets {G : Type} (inter : G → G → G) (gIsEmpty : G → Bool)
    (streets : List (Street G)) (bands : List (G × ℚ)) : List (TaggedStreet G) :=
  bands.flatMap (fun band =>
    (streets.map (fun st => TaggedStreet.mk (inter st.geom band.1) st.lanes band.2)).filter
      (fun t => !(gIsEmpty t.geom)))

/-- Toy geometry intersection on `ℕ` for concrete witnesses. -/
def demoInter (m n : ℕ) : ℕ := min m n

/-- Toy geometry emptiness test on `ℕ` for concrete witnesses. -/
def demoIsEmpty (n : ℕ) : Bool := n == 0

/-- Outcome of the `osmnx` call inside `_fetch_streets`: data, a
`ValueError` (no streets in the hexagon), or any other exception. -/
inductive FetchOutcome (G : Type) where
  | ok (streets : List (RawStreet G))
  | valueError
  | fatalError
deriving DecidableEq

/-- Error handling of `_fetch_streets`: a `ValueError` is swallowed and leaves
the street layer empty; any other exception calls `exit(1)`, modelled as
`Except.error`. -/
def fetch_streets_run {G : Type} : FetchOutcome G → Except Unit (List (Street G))
  | .ok raws => .ok (fetch_streets raws)
  | .valueError => .ok []
  | .fatalError => .error ()

/-- The per-hexagon loop of `main`: hexagons are processed sequentially and
an `exit(1)` raised for one hexagon terminates the whole run. -/
def process_hexagons {G : Type} : List (FetchOutcome G) → Except Unit (List (List (Street G)))
  | [] => .ok []
  | f :: rest =>
    match fetch_streets_run f with
    | .error e => .error e
    | .ok sts => (process_hexagons rest).map (fun l => sts :: l)

/-- Source `Hexagon.min_elevation`: minimum of the hexagon's band elevations, `⊤`
when the hexagon has no bands (the accumulator is then left unchanged, as in
the float semantics of `main`). -/
def hexMinElevation (rows : List ℚ) : WithTop ℚ :=
  rows.foldr (fun e m => min (e : WithTop ℚ) m) ⊤

/-- Source `Hexagon.max_elevation`, dually. -/
def hexMaxElevation (rows : List ℚ) : WithBot ℚ :=
  rows.foldr (fun e m => max (e : WithBot ℚ) m) ⊥

/-- The `min_elevation` accumulation of `main`: fold over hexagons starting
from `float('inf')`. -/
def globalMinElevation (hexs : List (List ℚ)) : WithTop ℚ :=
  hexs.foldl (fun acc rows => min acc (hexMinElevation rows)) ⊤

/-- The `max_elevation` accumulation of `main`, starting from
`float('-inf')`. -/
def globalMaxElevation (hexs : List (List ℚ)) : WithBot ℚ :=
  hexs.foldl (fun acc rows => max acc (hexMaxElevation rows)) ⊥

/-! ## Helper lemmas -/

lemma neighbourStep_foldl_length (s : ℚ) :
    ∀ (l : List (ℤ × ℤ)) (st : Pt × List Hexagon),
      ((l.foldl (neighbourStep s) st).2).length = st.2.length + l.length := by
  intro l
  induction l with
  | nil => intro st; simp
  | cons d l ih =>
    intro st
    simp only [List.foldl_cons, ih, neighbourStep, List.length_append, List.length_cons]
    simp
    omega

lemma neighbourStep_foldl_sizes (s : ℚ) :
    ∀ (l : List (ℤ × ℤ)) (st : Pt × List Hexagon) (g : Hexagon),
      g ∈ (l.foldl (neighbourStep s) st).2 → g ∈ st.2 ∨ g.size = s := by
  intro l
  induction l with
  | nil => intro st g hg; exact Or.inl hg
  | cons d l ih =>
    intro st g hg
    rcases ih _ _ hg with h | h
    · simp only [neighbourStep, List.mem_append, List.mem_singleton] at h
      rcases h with h | h
      · exact Or.inl h
      · subst h; exact Or.inr rfl
    · exact Or.inr h

set_option maxHeartbeats 2000000 in
lemma boundsOf_hexPolygon (x y s : ℚ) (hs : 0 < s) :
    boundsOf (hexPolygon x y s) = ⟨x - s, y - s, x + s, y + s⟩ := by
  simp only [hexPolygon, boundsOf, List.map_cons, List.map_nil, List.foldr_cons, List.foldr_nil]
  simp only [Bounds.mk.injEq]
  refine ⟨?_, ?_, ?_, ?_⟩ <;>
    · simp only [min_def, max_def]
      split_ifs <;> linarith

lemma affine_min (a c u v : ℚ) (ha : 0 < a) :
    min (a * (u + c)) (a * (v + c)) = a * (min u v + c) := by
  rcases le_total u v with h | h
  · rw [min_eq_left (by nlinarith), min_eq_left h]
  · rw [min_eq_right (by nlinarith), min_eq_right h]

lemma affine_max (a c u v : ℚ) (ha : 0 < a) :
    max (a * (u + c)) (a * (v + c)) = a * (max u v + c) := by
  rcases le_total u v with h | h
  · rw [max_eq_right (by nlinarith), max_eq_right h]
  · rw [max_eq_left (by nlinarith), max_eq_left h]

lemma mul_max_pos (a u v : ℚ) (ha : 0 < a) : max (a * u) (a * v) = a * max u v := by
  have h := affine_max a 0 u v ha
  simpa using h

lemma foldr_min_map_affine (a c : ℚ) (ha : 0 < a) (l : List ℚ) (init : ℚ) :
    (l.map (fun u => a * (u + c))).foldr min (a * (init + c)) = a * (l.foldr min init + c) := by
  induction l with
  | nil => simp
  | cons u l ih => simp only [List.map_cons, List.foldr_cons, ih, affine_min a c u _ ha]

lemma foldr_max_map_affine (a c : ℚ) (ha : 0 < a) (l : List ℚ) (init : ℚ) :
    (l.map (fun u => a * (u + c))).foldr max (a * (init + c)) = a * (l.foldr max init + c) := by
  induction l with
  | nil => simp
  | cons u l ih => simp only [List.map_cons, List.foldr_cons, ih, affine_max a c u _ ha]

lemma boundsOf_map_affine (a cx cy : ℚ) (ha : 0 < a) (pts : List Pt) (hne : pts ≠ []) :
    boundsOf (pts.map (fun p => (a * (p.1 + cx), a * (p.2 + cy)))) =
      ⟨a * ((boundsOf pts).minx + cx), a * ((boundsOf pts).miny + cy),
       a * ((boundsOf pts).maxx + cx), a * ((boundsOf pts).maxy + cy)⟩ := by
  cases pts with
  | nil => exact absurd rfl hne
  | cons p ps =>
    simp only [List.map_cons, boundsOf]
    have hx : (ps.map (fun p : Pt => (a * (p.1 + cx), a * (p.2 + cy)))).map Prod.fst =
        (ps.map Prod.fst).map (fun u => a * (u + cx)) := by
      simp [List.map_map, Function.comp]
    have hy : (ps.map (fun p : Pt => (a * (p.1 + cx), a * (p.2 + cy)))).map Prod.snd =
        (ps.map Prod.snd).map (fun u => a * (u + cy)) := by
      simp [List.map_map, Function.comp]
    rw [hx, hy]
    rw [foldr_min_map_affine a cx ha, foldr_min_map_affine a cy ha,
        foldr_max_map_affine a cx ha, foldr_max_map_affine a cy ha]

lemma hexMinElevation_le (rows : List ℚ) (e : ℚ) (he : e ∈ rows) :
    hexMinElevation rows ≤ (e : WithTop ℚ) := by
  induction rows with
  | nil => cases he
  | cons r rows ih =>
    rcases List.mem_cons.mp he with h | h
    · subst h; exact min_le_left _ _
    · exact le_trans (min_le_right _ _) (ih h)

lemma le_hexMaxElevation (rows : List ℚ) (e : ℚ) (he : e ∈ rows) :
    (e : WithBot ℚ) ≤ hexMaxElevation rows := by
  induction rows with
  | nil => cases he
  | cons r rows ih =>
    rcases List.mem_cons.mp he with h | h
    · subst h; exact le_max_left _ _
    · exact le_trans (ih h) (le_max_right _ _)

lemma foldl_min_le_acc {α : Type} [LinearOrder α] (g : List ℚ → α) :
    ∀ (l : List (List ℚ)) (acc : α), l.foldl (fun a r => min a (g r)) acc ≤ acc := by
  intro l
  induction l with
  | nil => intro acc; exact le_refl acc
  | cons r l ih =>
    intro acc
    exact le_trans (ih (min acc (g r))) (min_le_left _ _)

lemma foldl_min_le_elem {α : Type} [LinearOrder α] (g : List ℚ → α) :
    ∀ (l : List (List ℚ)) (acc : α) (x : List ℚ), x ∈ l →
      l.foldl (fun a r => min a (g r)) acc ≤ g x := by
  intro l
  induction l with
  | nil => intro acc x hx; cases hx
  | cons r l ih =>
    intro acc x hx
    rcases List.mem_cons.mp hx with h | h
    · subst h
      exact le_trans (foldl_min_le_acc g l _) (min_le_right _ _)
    · exact ih _ x h

lemma acc_le_foldl_max {α : Type} [LinearOrder α] (g : List ℚ → α) :
    ∀ (l : List (List ℚ)) (acc : α), acc ≤ l.foldl (fun a r => max a (g r)) acc := by
  intro l
  induction l with
  | nil => intro acc; exact le_refl acc
  | cons r l ih =>
    intro acc
    exact le_trans (le_max_left _ _) (ih (max acc (g r)))

lemma elem_le_foldl_max {α : Type} [LinearOrder α] (g : List ℚ → α) :
    ∀ (l : List (List ℚ)) (acc : α) (x : List ℚ), x ∈ l →
      g x ≤ l.foldl (fun a r => max a (g r)) acc := by
  intro l
  induction l with
  | nil => intro acc x hx; cases hx
  | cons r l ih =>
    intro acc x hx
    rcases List.mem_cons.mp hx with h | h
    · subst h
      exact le_trans (le_max_right _ _) (acc_le_foldl_max g l _)
    · exact ih _ x h

lemma distributeAux_inv (s xmin xmax ymax ymin : ℚ) (hs : 0 < s) :
    ∀ (fuel : ℕ) (x y : ℚ) (ev : Bool) (acc l : List Hexagon),
      (∃ a b : ℤ, a % 2 = b % 2 ∧ (ev = true ↔ b % 2 = 0) ∧
        x = xmin + 3*s/2*a ∧ y = ymin + s*b) →
      (∀ h ∈ acc, HexOk xmin ymin s h) →
      acc.Pairwise (fun h1 h2 => lexLt h1.center h2.center) →
      (∀ h ∈ acc, lexLt h.center (x + s, y + s)) →
      distributeAux s xmin xmax ymax fuel x y ev acc = some l →
      (∀ h ∈ l, HexOk xmin ymin s h) ∧ l.Pairwise (fun h1 h2 => lexLt h1.center h2.center) := by
  intro fuel
  induction fuel with
  | zero =>
    intro x y ev acc l _ _ _ _ hrun
    simp [distributeAux] at hrun
  | succ fuel ih =>
    intro x y ev acc l hst hok hpair hbound hrun
    obtain ⟨a, b, hab, hev, hx, hy⟩ := hst
    have hhexok : HexOk xmin ymin s ⟨(x + s, y + s), s⟩ := by
      refine ⟨rfl, a, b, hab, ?_⟩
      simp only [CenterAt, Prod.mk.injEq]
      constructor
      · rw [hx]; ring
      · rw [hy]; ring
    have hok' : ∀ h ∈ acc ++ [⟨(x + s, y + s), s⟩], HexOk xmin ymin s h := by
      intro h hh
      rcases List.mem_append.mp hh with h1 | h1
      · exact hok h h1
      · simp only [List.mem_singleton] at h1; subst h1; exact hhexok
    have hpair' : List.Pairwise (fun h1 h2 : Hexagon => lexLt h1.center h2.center)
        (acc ++ [⟨(x + s, y + s), s⟩]) := by
      apply List.pairwise_append.mpr
      refine ⟨hpair, List.pairwise_singleton _ _, ?_⟩
      intro h1 hh1 h2 hh2
      simp only [List.mem_singleton] at hh2
      subst hh2
      exact hbound h1 hh1
    rw [distributeAux] at hrun
    by_cases hc1 : x + 3*s + s > xmax
    · rw [if_pos hc1] at hrun
      by_cases hc2 : y + s + s > ymax
      · rw [if_pos hc2] at hrun
        have hl : acc ++ [⟨(x + s, y + s), s⟩] = l := Option.some_inj.mp hrun
        subst hl
        exact ⟨hok', hpair'⟩
      · rw [if_neg hc2] at hrun
        refine ih _ _ _ _ _ ?_ hok' hpair' ?_ hrun
        · cases ev with
          | true =>
            have hb : b % 2 = 0 := hev.mp rfl
            refine ⟨1, b + 1, by omega, ?_, ?_, ?_⟩
            · exact ⟨fun h => absurd h (by simp), fun h => absurd h (by omega)⟩
            · show (if true = true then xmin + 3*s/2 else xmin) = xmin + 3*s/2*((1:ℤ):ℚ)
              norm_num
            · rw [hy]; push_cast; ring
          | false =>
            have hb : b % 2 ≠ 0 := fun h => by simpa using hev.mpr h
            refine ⟨0, b + 1, by omega, ?_, ?_, ?_⟩
            · exact ⟨fun _ => by omega, fun _ => rfl⟩
            · show (if false = true then xmin + 3*s/2 else xmin) = xmin + 3*s/2*((0:ℤ):ℚ)
              norm_num
            · rw [hy]; push_cast; ring
        · intro h hh
          rcases List.mem_append.mp hh with h1 | h1
          · have hb2 := hbound h h1
            simp only [lexLt] at hb2
            rcases hb2 with h2 | h2
            · exact Or.inl (show h.center.2 < y + s + s by linarith)
            · exact Or.inl (show h.center.2 < y + s + s by rw [h2.1]; linarith)
          · simp only [List.mem_singleton] at h1
            subst h1
            exact Or.inl (show y + s < y + s + s by linarith)
    · rw [if_neg hc1] at hrun
      refine ih _ _ _ _ _ ?_ hok' hpair' ?_ hrun
      · refine ⟨a + 2, b, by omega, hev, ?_, hy⟩
        rw [hx]; push_cast; ring
      · intro h hh
        rcases List.mem_append.mp hh with h1 | h1
        · have hb2 := hbound h h1
          simp only [lexLt] at hb2
          rcases hb2 with h2 | h2
          · exact Or.inl (show h.center.2 < y + s by exact h2)
          · exact Or.inr ⟨h2.1, show h.center.1 < x + 3*s + s by linarith [h2.2]⟩
        · simp only [List.mem_singleton] at h1
          subst h1
          exact Or.inr ⟨rfl, show x + s < x + 3*s + s by linarith⟩

lemma insideOpen_hex_iff (cx cy s : ℚ) (p : Pt) :
    insideOpen (hexPolygon cx cy s) p ↔
      (0 < cross2 (cx - s/2, cy + s) (cx - s, cy) p ∧
       0 < cross2 (cx - s, cy) (cx - s/2, cy - s) p ∧
       0 < cross2 (cx - s/2, cy - s) (cx + s/2, cy - s) p ∧
       0 < cross2 (cx + s/2, cy - s) (cx + s, cy) p ∧
       0 < cross2 (cx + s, cy) (cx + s/2, cy + s) p ∧
       0 < cross2 (cx + s/2, cy + s) (cx - s/2, cy + s) p) := by
  simp [insideOpen, hexPolygon, edgesOf, List.zip]

lemma pos_factor {s t : ℚ} (hs : 0 < s) (h : 0 < s * t) : 0 < t := by
  by_contra hc
  push_neg at hc
  nlinarith

set_option maxHeartbeats 2000000 in
lemma hex_interiors_disjoint (s cx cy : ℚ) (hs : 0 < s) (a b : ℤ)
    (hab : a % 2 = b % 2) (hne : ¬(a = 0 ∧ b = 0)) (px py : ℚ)
    (h1 : insideOpen (hexPolygon cx cy s) (px, py))
    (h2 : insideOpen (hexPolygon (cx + 3*s/2*a) (cy + s*b) s) (px, py)) : False := by
  rw [insideOpen_hex_iff] at h1 h2
  obtain ⟨a1, a2, a3, a4, a5, a6⟩ := h1
  obtain ⟨b1, b2, b3, b4, b5, b6⟩ := h2
  simp only [cross2] at a1 a2 a3 a4 a5 a6 b1 b2 b3 b4 b5 b6
  ring_nf at a1 a2 a3 a4 a5 a6 b1 b2 b3 b4 b5 b6
  have l1 : 0 < s * ((px - cx) - (py - cy)/2 + s) := by ring_nf; linarith [a1]
  have l2 : 0 < s * ((px - cx) + (py - cy)/2 + s) := by ring_nf; linarith [a2]
  have l3 : 0 < s * ((py - cy) + s) := by ring_nf; linarith [a3]
  have l4 : 0 < s * (-(px - cx) + (py - cy)/2 + s) := by ring_nf; linarith [a4]
  have l5 : 0 < s * (-(px - cx) - (py - cy)/2 + s) := by ring_nf; linarith [a5]
  have l6 : 0 < s * (-(py - cy) + s) := by ring_nf; linarith [a6]
  have m1 : 0 < s * ((px - cx - 3*s/2*a) - (py - cy - s*b)/2 + s) := by ring_nf; linarith [b1]
  have m2 : 0 < s * ((px - cx - 3*s/2*a) + (py - cy - s*b)/2 + s) := by ring_nf; linarith [b2]
  have m3 : 0 < s * ((py - cy - s*b) + s) := by ring_nf; linarith [b3]
  have m4 : 0 < s * (-(px - cx - 3*s/2*a) + (py - cy - s*b)/2 + s) := by ring_nf; linarith [b4]
  have m5 : 0 < s * (-(px - cx - 3*s/2*a) - (py - cy - s*b)/2 + s) := by ring_nf; linarith [b5]
  have m6 : 0 < s * (-(py - cy - s*b) + s) := by ring_nf; linarith [b6]
  have L1 := pos_factor hs l1
  have L2 := pos_factor hs l2
  have L3 := pos_factor hs l3
  have L4 := pos_factor hs l4
  have L5 := pos_factor hs l5
  have L6 := pos_factor hs l6
  have M1 := pos_factor hs m1
  have M2 := pos_factor hs m2
  have M3 := pos_factor hs m3
  have M4 := pos_factor hs m4
  have M5 := pos_factor hs m5
  have M6 := pos_factor hs m6
  have c1 : 0 < s * ((b:ℚ) + 2) := by ring_nf; ring_nf at L3 M6; linarith [L3, M6]
  have c2 : 0 < s * (2 - (b:ℚ)) := by ring_nf; ring_nf at L6 M3; linarith [L6, M3]
  have c3 : 0 < s * (3*(a:ℚ) - b + 4) := by ring_nf; ring_nf at L1 M4; linarith [L1, M4]
  have c4 : 0 < s * (4 - (3*(a:ℚ) - b)) := by ring_nf; ring_nf at L4 M1; linarith [L4, M1]
  have c5 : 0 < s * (3*(a:ℚ) + b + 4) := by ring_nf; ring_nf at L2 M5; linarith [L2, M5]
  have c6 : 0 < s * (4 - (3*(a:ℚ) + b)) := by ring_nf; ring_nf at L5 M2; linarith [L5, M2]
  have q1 := pos_factor hs c1
  have q2 := pos_factor hs c2
  have q3 := pos_factor hs c3
  have q4 := pos_factor hs c4
  have q5 := pos_factor hs c5
  have q6 := pos_factor hs c6
  have z1 : (0:ℤ) < b + 2 := by exact_mod_cast q1
  have z2 : (0:ℤ) < 2 - b := by exact_mod_cast q2
  have z3 : (0:ℤ) < 3*a - b + 4 := by exact_mod_cast q3
  have z4 : (0:ℤ) < 4 - (3*a - b) := by exact_mod_cast q4
  have z5 : (0:ℤ) < 3*a + b + 4 := by exact_mod_cast q5
  have z6 : (0:ℤ) < 4 - (3*a + b) := by exact_mod_cast q6
  omega

lemma colsLeft_step (s xmax x : ℚ) (hs : 0 < s) (h : x + 3*s + s ≤ xmax) :
    colsLeft s xmax (x + 3*s) + 1 = colsLeft s xmax x := by
  unfold colsLeft
  have h3s : (0:ℚ) < 3*s := by linarith
  have hre : xmax - s - (x + 3*s) = (xmax - s - x) - 3*s := by ring
  rw [hre, sub_div, div_self (ne_of_gt h3s)]
  rw [Int.ceil_sub_one]
  have hr : (1:ℚ) ≤ (xmax - s - x) / (3*s) := by
    rw [le_div_iff₀ h3s]
    linarith
  have h1 : (1:ℤ) ≤ ⌈(xmax - s - x) / (3*s)⌉ := by
    exact_mod_cast le_trans hr (Int.le_ceil _)
  omega

lemma rowsLeft_step (s ymax y : ℚ) (hs : 0 < s) (h : y + s + s ≤ ymax) :
    rowsLeft s ymax (y + s) + 1 = rowsLeft s ymax y := by
  unfold rowsLeft
  have hre : ymax - s - (y + s) = (ymax - s - y) - s := by ring
  rw [hre, sub_div, div_self (ne_of_gt hs)]
  rw [Int.ceil_sub_one]
  have hr : (1:ℚ) ≤ (ymax - s - y) / s := by
    rw [le_div_iff₀ hs]
    linarith
  have h1 : (1:ℤ) ≤ ⌈(ymax - s - y) / s⌉ := by
    exact_mod_cast le_trans hr (Int.le_ceil _)
  omega

lemma colsLeft_mono (s xmax : ℚ) (hs : 0 < s) {x x' : ℚ} (h : x ≤ x') :
    colsLeft s xmax x' ≤ colsLeft s xmax x := by
  unfold colsLeft
  have h3s : (0:ℚ) < 3*s := by linarith
  refine Int.toNat_le_toNat (Int.ceil_le_ceil ?_)
  exact div_le_div_of_nonneg_right (by linarith) h3s.le

lemma distributeAux_isSome (s xmin xmax ymax : ℚ) (hs : 0 < s) :
    ∀ (fuel : ℕ) (x y : ℚ) (ev : Bool) (acc : List Hexagon),
      colsLeft s xmax x + (colsLeft s xmax xmin + 1) * rowsLeft s ymax y + 1 ≤ fuel →
      (distributeAux s xmin xmax ymax fuel x y ev acc).isSome := by
  intro fuel
  induction fuel with
  | zero =>
    intro x y ev acc hle
    exact absurd hle (Nat.not_succ_le_zero _)
  | succ fuel ih =>
    intro x y ev acc hle
    rw [distributeAux]
    by_cases hc1 : x + 3*s + s > xmax
    · rw [if_pos hc1]
      by_cases hc2 : y + s + s > ymax
      · rw [if_pos hc2]
        simp
      · rw [if_neg hc2]
        apply ih
        push_neg at hc2
        have hrstep := rowsLeft_step s ymax y hs hc2
        have hcmono : colsLeft s xmax (if ev then xmin + 3*s/2 else xmin) ≤
            colsLeft s xmax xmin := by
          cases ev
          · simp
          · simp only [if_pos]
            exact colsLeft_mono s xmax hs (by linarith)
        set C0 := colsLeft s xmax xmin with hC0
        set r := rowsLeft s ymax y with hrr
        set r' := rowsLeft s ymax (y + s) with hrr'
        set c'' := colsLeft s xmax (if ev then xmin + 3*s/2 else xmin) with hcc
        have hkey : (C0+1) * r = (C0+1) * r' + (C0+1) := by
          rw [← hrstep]
          ring
        set P := (C0+1) * r with hP
        set Q := (C0+1) * r' with hQ
        omega
    · rw [if_neg hc1]
      apply ih
      push_neg at hc1
      have hcstep := colsLeft_step s xmax x hs hc1
      set C0 := colsLeft s xmax xmin with hC0
      set r := rowsLeft s ymax y with hrr
      set c := colsLeft s xmax x with hcc
      set c' := colsLeft s xmax (x + 3*s) with hcc'
      set P := (C0+1) * r with hP
      omega

lemma distributeAux_head (s xmin xmax ymax : ℚ) :
    ∀ (fuel : ℕ) (x y : ℚ) (ev : Bool) (acc l : List Hexagon),
      distributeAux s xmin xmax ymax fuel x y ev acc = some l →
      ∃ rest, l = acc ++ ⟨(x + s, y + s), s⟩ :: rest := by
  intro fuel
  induction fuel with
  | zero =>
    intro x y ev acc l hrun
    simp [distributeAux] at hrun
  | succ fuel ih =>
    intro x y ev acc l hrun
    rw [distributeAux] at hrun
    by_cases hc1 : x + 3*s + s > xmax
    · rw [if_pos hc1] at hrun
      by_cases hc2 : y + s + s > ymax
      · rw [if_pos hc2] at hrun
        refine ⟨[], ?_⟩
        have := Option.some_inj.mp hrun
        rw [← this]
      · rw [if_neg hc2] at hrun
        obtain ⟨rest', hrest'⟩ := ih _ _ _ _ _ hrun
        refine ⟨⟨((if ev then xmin + 3*s/2 else xmin) + s, y + s + s), s⟩ :: rest', ?_⟩
        rw [hrest']
        simp
    · rw [if_neg hc1] at hrun
      obtain ⟨rest', hrest'⟩ := ih _ _ _ _ _ hrun
      refine ⟨⟨(x + 3*s + s, y + s), s⟩ :: rest', ?_⟩
      rw [hrest']
      simp

/-! ## Claim theorems -/

/-- C1 (amended): the hexagon polygon is exactly the closed six-vertex ring
of the source in source order, its width is `2s`, and the vertical extent
between the top and bottom edges is `2s` (not `s·√3`: the code's hexagon is
vertically stretched, not regular). -/
theorem hexagon_polygon_shape (x y s : ℚ) (hs : 0 < s) :
    hexPolygon x y s =
      [ (x - s/2, y + s), (x - s, y), (x - s/2, y - s), (x + s/2, y - s),
        (x + s, y), (x + s/2, y + s), (x - s/2, y + s) ] ∧
    widthOf (hexPolygon x y s) = 2 * s ∧
    vertExtentOf (hexPolygon x y s) = 2 * s := by
  refine ⟨rfl, ?_, ?_⟩ <;>
    · simp [widthOf, vertExtentOf, boundsOf_hexPolygon x y s hs]
      ring

/-- Witness for C1 (amended) at centre `(0,0)`, size `1`. -/
theorem hexagon_polygon_shape_witness :
    hexPolygon 0 0 1 =
      [ ((0:ℚ) - 1/2, (0:ℚ) + 1), ((0:ℚ) - 1, (0:ℚ)), ((0:ℚ) - 1/2, (0:ℚ) - 1),
        ((0:ℚ) + 1/2, (0:ℚ) - 1), ((0:ℚ) + 1, (0:ℚ)), ((0:ℚ) + 1/2, (0:ℚ) + 1),
        ((0:ℚ) - 1/2, (0:ℚ) + 1) ] ∧
    widthOf (hexPolygon 0 0 1) = 2 * 1 ∧
    vertExtentOf (hexPolygon 0 0 1) = 2 * 1 :=
  hexagon_polygon_shape 0 0 1 (by norm_num)

/-- C1 counterexample: at centre `(0,0)` and size `1` the vertical extent
between the top and bottom edges of the code's hexagon is `2`, which is not
`1·√3` as the claim states. -/
theorem hexagon_vert_extent_ne_sqrt3 :
    vertExtentOf (hexPolygon 0 0 1) = 2 ∧
      ((2:ℚ) : ℝ) ≠ (1 : ℝ) * Real.sqrt 3 := by
  constructor
  · simp [vertExtentOf, boundsOf_hexPolygon 0 0 1 (by norm_num)]
    norm_num
  · intro h
    have h3 : Real.sqrt 3 = 2 := by
      push_cast at h
      linarith
    have h4 := Real.sq_sqrt (by norm_num : (0:ℝ) ≤ 3)
    rw [h3] at h4
    norm_num at h4

/-- C2: for every ring distance `d ≥ 1`, `get_neighbours d` returns exactly
`6·d` hexagons, all of the centre hexagon's size, generated by the
direction-walk of the source. -/
theorem get_neighbours_count_and_size (h : Hexagon) (d : ℕ) (hd : 1 ≤ d) :
    (h.get_neighbours d).length = 6 * d ∧ ∀ g ∈ h.get_neighbours d, g.size = h.size := by
  constructor
  · unfold Hexagon.get_neighbours
    rw [neighbourStep_foldl_length]
    simp [neighbourDirections, List.length_flatMap]
    omega
  · intro g hg
    unfold Hexagon.get_neighbours at hg
    rcases neighbourStep_foldl_sizes h.size _ _ g hg with h0 | h0
    · simp at h0
    · exact h0

/-- Witness for C2 at `d = 2` around the origin. -/
theorem get_neighbours_count_and_size_witness :
    ((Hexagon.mk (0, 0) 1).get_neighbours 2).length = 6 * 2 ∧
      ∀ g ∈ (Hexagon.mk (0, 0) 1).get_neighbours 2, g.size = (Hexagon.mk (0, 0) 1).size :=
  get_neighbours_count_and_size (Hexagon.mk (0, 0) 1) 2 (by norm_num)

/-- C3 (amended): no two hexagons returned by `distribute_hexagons` have
interiors that overlap; the coverage half of the claim fails (see the
counterexample). -/
theorem distribute_hexagons_no_overlap (bbox : ℚ × ℚ × ℚ × ℚ) (s : ℚ) (hs : 0 < s)
    (fuel : ℕ) (l : List Hexagon) (hrun : distribute_hexagons bbox s fuel = some l) :
    List.Pairwise
      (fun h1 h2 : Hexagon => ¬ ∃ p : Pt, insideOpen h1.polygon p ∧ insideOpen h2.polygon p)
      l := by
  have hinv := distributeAux_inv s bbox.1 bbox.2.2.1 bbox.2.2.2 bbox.2.1 hs fuel
    bbox.1 bbox.2.1 true [] l
    ⟨0, 0, rfl, by simp, by push_cast; ring, by push_cast; ring⟩
    (by simp) (by simp) (by simp) hrun
  obtain ⟨hok, hpair⟩ := hinv
  refine List.Pairwise.imp_of_mem ?_ hpair
  intro h1 h2 hm1 hm2 hlex hexist
  obtain ⟨p, hp1, hp2⟩ := hexist
  obtain ⟨px, py⟩ := p
  obtain ⟨hsz1, a1, b1, hab1, hc1⟩ := hok h1 hm1
  obtain ⟨hsz2, a2, b2, hab2, hc2⟩ := hok h2 hm2
  have e1 : h2.center.1 = h1.center.1 + 3*s/2*(((a2 - a1 : ℤ)) : ℚ) := by
    rw [hc1, hc2]
    simp only [CenterAt]
    push_cast
    ring
  have e2 : h2.center.2 = h1.center.2 + s*(((b2 - b1 : ℤ)) : ℚ) := by
    rw [hc1, hc2]
    simp only [CenterAt]
    push_cast
    ring
  have hnz : ¬(a2 - a1 = 0 ∧ b2 - b1 = 0) := by
    rintro ⟨hA, hB⟩
    have hcc : h1.center = h2.center := by
      rw [hc1, hc2]
      have ha : a1 = a2 := by omega
      have hb : b1 = b2 := by omega
      rw [ha, hb]
    simp only [lexLt, hcc] at hlex
    rcases hlex with h | h
    · exact lt_irrefl _ h
    · exact lt_irrefl _ h.2
  rw [Hexagon.polygon, hsz1] at hp1
  rw [Hexagon.polygon, hsz2, e1, e2] at hp2
  exact hex_interiors_disjoint s h1.center.1 h1.center.2 hs (a2 - a1) (b2 - b1)
    (by omega) hnz px py hp1 hp2

/-- Witness for C3 (amended) on the concrete run
`distribute_hexagons((0, 0, 10, 4), 2)`. -/
theorem distribute_no_overlap_witness :
    List.Pairwise
      (fun h1 h2 : Hexagon => ¬ ∃ p : Pt, insideOpen h1.polygon p ∧ insideOpen h2.polygon p)
      demoGrid :=
  distribute_hexagons_no_overlap (0, 0, 10, 4) 2 (by norm_num) 4 demoGrid
    (by norm_num [demoGrid, distribute_hexagons, distributeAux])

/-- C3 counterexample: on the bounding box `(0, 0, 10, 4)` with size `2` the
distributor returns three hexagons and the bottom-left corner `(0, 0)` of the
box lies in none of them, so the corner-coverage half of the claim is
false. -/
theorem distribute_corner_uncovered :
    distribute_hexagons (0, 0, 10, 4) 2 4 = some demoGrid ∧
    ¬ ∃ h ∈ demoGrid, insideCl h.polygon (0, 0) := by
  constructor
  · norm_num [demoGrid, distribute_hexagons, distributeAux]
  · simp only [demoGrid, List.mem_cons, List.not_mem_nil]
    rintro ⟨h, hh, hins⟩
    have h1 := hins
    rcases hh with rfl | rfl | rfl | hF
    · have := h1 ((0, 2), (1, 0)) (by norm_num [Hexagon.polygon, hexPolygon, edgesOf, List.zip])
      norm_num [cross2] at this
    · have := h1 ((7, 4), (6, 2)) (by norm_num [Hexagon.polygon, hexPolygon, edgesOf, List.zip])
      norm_num [cross2] at this
    · have := h1 ((4, 6), (3, 4)) (by norm_num [Hexagon.polygon, hexPolygon, edgesOf, List.zip])
      norm_num [cross2] at this
    · exact hF

/-- C4: a band whose computed extrusion height `elevation - offset` is
exactly zero contributes nothing to the mesh, and the end-to-end example
(centre `(0,0)`, size `650`, bands at `100` and `105`, base `10 mm`, scale
`0.1/5`, offset `100`) yields exactly two volumes: the `10 mm` base slab and
one `0.1 mm` band volume translated to `z = 10`. -/
theorem export_mesh_zero_band_skipped :
    (∀ (h : Hexagon) (d b sc off : ℚ) (g : SGeom) (pre post : List (SGeom × ℚ)),
      export_mesh h d b sc off (pre ++ (g, off) :: post) = export_mesh h d b sc off (pre ++ post)) ∧
    exampleMesh.length = 2 ∧
    exampleMesh.map Volume.height = [10, 1/10] ∧
    exampleMesh.map Volume.zoff = [0, 10] := by
  refine ⟨?_, ?_, ?_, ?_⟩
  · intro h d b sc off g pre post
    simp [export_mesh, List.flatMap_append, bandVolumes]
  · norm_num [exampleMesh, export_mesh, bandVolumes]
  · norm_num [exampleMesh, export_mesh, bandVolumes]
  · norm_num [exampleMesh, export_mesh, bandVolumes]

/-- C5: the overlay emits, per elevation band, exactly one output segment
for every street whose intersection with the band is non-empty, carrying the
intersection geometry, the original lanes and the band elevation; and
`_fetch_streets` keeps every raw segment, turning a missing `lanes`
attribute into `0`. -/
theorem overlay_streets_per_band {G : Type} (inter : G → G → G) (gIsEmpty : G → Bool)
    (streets : List (Street G)) (bands : List (G × ℚ)) (raws : List (RawStreet G)) :
    (overlay_streets inter gIsEmpty streets bands).length =
      (bands.map (fun band =>
        streets.countP (fun st => !(gIsEmpty (inter st.geom band.1))))).sum ∧
    (∀ band ∈ bands, ∀ st ∈ streets, gIsEmpty (inter st.geom band.1) = false →
      TaggedStreet.mk (inter st.geom band.1) st.lanes band.2 ∈
        overlay_streets inter gIsEmpty streets bands) ∧
    (fetch_streets raws).length = raws.length ∧
    (∀ r ∈ raws, r.lanes = none → Street.mk r.geom 0 ∈ fetch_streets raws) := by
  refine ⟨?_, ?_, ?_, ?_⟩
  · simp only [overlay_streets, List.length_flatMap, Function.comp_def,
      ← List.countP_eq_length_filter, List.countP_map]
  · intro band hband st hst hfalse
    simp only [overlay_streets, List.mem_flatMap, List.mem_filter, List.mem_map]
    exact ⟨band, hband, ⟨st, hst, rfl⟩, by simp [hfalse]⟩
  · simp [fetch_streets]
  · intro r hr hnone
    simp only [fetch_streets, List.mem_map]
    exact ⟨r, hr, by simp [hnone]⟩

/-- Witness for C5 with a toy geometry type. -/
theorem overlay_streets_per_band_witness :
    (overlay_streets demoInter demoIsEmpty [⟨2, 1⟩] [(3, 100)]).length =
      ([(3, (100:ℚ))].map (fun band =>
        [(⟨2, 1⟩ : Street ℕ)].countP (fun st => !(demoIsEmpty (demoInter st.geom band.1))))).sum ∧
    TaggedStreet.mk (demoInter 2 3) 1 100 ∈
      overlay_streets demoInter demoIsEmpty [⟨2, 1⟩] [(3, 100)] ∧
    (fetch_streets [(⟨7, none⟩ : RawStreet ℕ)]).length = [(⟨7, none⟩ : RawStreet ℕ)].length ∧
    Street.mk 7 0 ∈ fetch_streets [(⟨7, none⟩ : RawStreet ℕ)] := by
  have h := overlay_streets_per_band demoInter demoIsEmpty [⟨2, 1⟩] [(3, 100)]
    [(⟨7, none⟩ : RawStreet ℕ)]
  exact ⟨h.1, h.2.1 (3, 100) (by simp) ⟨2, 1⟩ (by simp) (by decide),
    h.2.2.1, h.2.2.2 ⟨7, none⟩ (by simp) rfl⟩

/-- C6: after folding any list of hexagons (in any order), the accumulated
global minimum is below every observed band elevation and the accumulated
global maximum is above it. -/
theorem global_elevation_range_bounds (hexs : List (List ℚ)) (rows : List ℚ) (e : ℚ)
    (h1 : rows ∈ hexs) (h2 : e ∈ rows) :
    globalMinElevation hexs ≤ (e : WithTop ℚ) ∧ (e : WithBot ℚ) ≤ globalMaxElevation hexs :=
  ⟨le_trans (foldl_min_le_elem hexMinElevation hexs ⊤ rows h1) (hexMinElevation_le rows e h2),
   le_trans (le_hexMaxElevation rows e h2) (elem_le_foldl_max hexMaxElevation hexs ⊥ rows h1)⟩

/-- Witness for C6. -/
theorem global_elevation_range_bounds_witness :
    globalMinElevation [[3, 5], [2]] ≤ ((5 : ℚ) : WithTop ℚ) ∧
      ((5 : ℚ) : WithBot ℚ) ≤ globalMaxElevation [[3, 5], [2]] :=
  global_elevation_range_bounds [[3, 5], [2]] [3, 5] 5 (by simp) (by simp)

/-- C7 (amended): a `ValueError` from the road fetch (no streets) leaves the
hexagon's road layer empty and the remaining hexagons are processed; any
other exception terminates the whole batch (the code calls `exit(1)`), so the
other hexagons are not processed. -/
theorem process_hexagons_error_flow {G : Type} (rest : List (FetchOutcome G)) :
    process_hexagons (.valueError :: rest) = (process_hexagons rest).map (fun l => [] :: l) ∧
    process_hexagons (.fatalError :: rest) = .error () := by
  constructor <;> rfl

/-- C7 counterexample: a batch whose first hexagon raises a non-`ValueError`
exception aborts entirely — the second hexagon, which alone would succeed, is
never processed — contradicting the claimed per-hexagon isolation of fatal
errors. -/
theorem process_hexagons_fatal_aborts_batch :
    process_hexagons (G := ℕ) [.fatalError, .valueError] = .error () ∧
    process_hexagons (G := ℕ) [.valueError] = .ok [[]] := by
  constructor <;> rfl

/-- C8: applying the normalization computed from a polygon's bounding box
(width and height positive) and a positive target size yields a geometry
whose bounding box has its minimum corner at the origin and whose larger side
equals the target size. -/
theorem normalization_bbox (pts : List Pt) (T : ℚ) (hne : pts ≠ [])
    (hW : 0 < (boundsOf pts).maxx - (boundsOf pts).minx)
    (hH : 0 < (boundsOf pts).maxy - (boundsOf pts).miny) (hT : 0 < T) :
    (boundsOf (apply_normalization pts (compute_normalization_params pts T))).minx = 0 ∧
    (boundsOf (apply_normalization pts (compute_normalization_params pts T))).miny = 0 ∧
    max ((boundsOf (apply_normalization pts (compute_normalization_params pts T))).maxx -
           (boundsOf (apply_normalization pts (compute_normalization_params pts T))).minx)
        ((boundsOf (apply_normalization pts (compute_normalization_params pts T))).maxy -
           (boundsOf (apply_normalization pts (compute_normalization_params pts T))).miny) = T := by
  set W := (boundsOf pts).maxx - (boundsOf pts).minx with hWdef
  set H := (boundsOf pts).maxy - (boundsOf pts).miny with hHdef
  have hM : 0 < max W H := lt_max_of_lt_left hW
  have ha : 0 < T / max W H := div_pos hT hM
  have hb : boundsOf (apply_normalization pts (compute_normalization_params pts T)) =
      ⟨T / max W H * ((boundsOf pts).minx + -(boundsOf pts).minx),
       T / max W H * ((boundsOf pts).miny + -(boundsOf pts).miny),
       T / max W H * ((boundsOf pts).maxx + -(boundsOf pts).minx),
       T / max W H * ((boundsOf pts).maxy + -(boundsOf pts).miny)⟩ := by
    unfold apply_normalization compute_normalization_params
    exact boundsOf_map_affine _ _ _ ha pts hne
  rw [hb]
  refine ⟨by ring, by ring, ?_⟩
  have h1 : T / max W H * ((boundsOf pts).maxx + -(boundsOf pts).minx) -
      T / max W H * ((boundsOf pts).minx + -(boundsOf pts).minx) = T / max W H * W := by
    rw [hWdef]; ring
  have h2 : T / max W H * ((boundsOf pts).maxy + -(boundsOf pts).miny) -
      T / max W H * ((boundsOf pts).miny + -(boundsOf pts).miny) = T / max W H * H := by
    rw [hHdef]; ring
  rw [h1, h2]
  rw [mul_max_pos _ _ _ ha, div_mul_cancel₀ T (ne_of_gt hM)]

/-- Witness for C8: a concrete triangle with width `4`, height `2`, target
`10`. -/
theorem normalization_bbox_witness :
    (boundsOf (apply_normalization [((1:ℚ),(1:ℚ)), ((5:ℚ),(2:ℚ)), ((3:ℚ),(3:ℚ))]
        (compute_normalization_params [((1:ℚ),(1:ℚ)), ((5:ℚ),(2:ℚ)), ((3:ℚ),(3:ℚ))] 10))).minx = 0 ∧
    (boundsOf (apply_normalization [((1:ℚ),(1:ℚ)), ((5:ℚ),(2:ℚ)), ((3:ℚ),(3:ℚ))]
        (compute_normalization_params [((1:ℚ),(1:ℚ)), ((5:ℚ),(2:ℚ)), ((3:ℚ),(3:ℚ))] 10))).miny = 0 ∧
    max ((boundsOf (apply_normalization [((1:ℚ),(1:ℚ)), ((5:ℚ),(2:ℚ)), ((3:ℚ),(3:ℚ))]
            (compute_normalization_params [((1:ℚ),(1:ℚ)), ((5:ℚ),(2:ℚ)), ((3:ℚ),(3:ℚ))] 10))).maxx -
         (boundsOf (apply_normalization [((1:ℚ),(1:ℚ)), ((5:ℚ),(2:ℚ)), ((3:ℚ),(3:ℚ))]
            (compute_normalization_params [((1:ℚ),(1:ℚ)), ((5:ℚ),(2:ℚ)), ((3:ℚ),(3:ℚ))] 10))).minx)
        ((boundsOf (apply_normalization [((1:ℚ),(1:ℚ)), ((5:ℚ),(2:ℚ)), ((3:ℚ),(3:ℚ))]
            (compute_normalization_params [((1:ℚ),(1:ℚ)), ((5:ℚ),(2:ℚ)), ((3:ℚ),(3:ℚ))] 10))).maxy -
         (boundsOf (apply_normalization [((1:ℚ),(1:ℚ)), ((5:ℚ),(2:ℚ)), ((3:ℚ),(3:ℚ))]
            (compute_normalization_params [((1:ℚ),(1:ℚ)), ((5:ℚ),(2:ℚ)), ((3:ℚ),(3:ℚ))] 10))).miny) = 10 :=
  normalization_bbox [((1:ℚ),(1:ℚ)), ((5:ℚ),(2:ℚ)), ((3:ℚ),(3:ℚ))] 10 (by simp)
    (by norm_num [boundsOf]) (by norm_num [boundsOf]) (by norm_num)

/-- C9: for every bounding box and positive hexagon size the distributor's
loop terminates: some fuel makes the fuel-indexed model return. -/
theorem distribute_hexagons_terminates (bbox : ℚ × ℚ × ℚ × ℚ) (s : ℚ) (hs : 0 < s) :
    ∃ fuel : ℕ, (distribute_hexagons bbox s fuel).isSome :=
  ⟨distributeFuel s bbox.1 bbox.2.2.1 bbox.2.2.2 bbox.1 bbox.2.1,
   distributeAux_isSome s bbox.1 bbox.2.2.1 bbox.2.2.2 hs _ bbox.1 bbox.2.1 true []
     (le_refl _)⟩

/-- Witness for C9. -/
theorem distribute_hexagons_terminates_witness :
    ∃ fuel : ℕ, (distribute_hexagons (0, 0, 10, 4) 2 fuel).isSome :=
  distribute_hexagons_terminates (0, 0, 10, 4) 2 (by norm_num)

/-- C10: for positive size the distributor terminates and every returned
list is non-empty with first hexagon centred at `(left + s, bottom + s)` —
the first hexagon is appended before any bounds check. -/
theorem distribute_hexagons_first (bbox : ℚ × ℚ × ℚ × ℚ) (s : ℚ) (hs : 0 < s) :
    (∃ fuel : ℕ, (distribute_hexagons bbox s fuel).isSome) ∧
    ∀ (fuel : ℕ) (l : List Hexagon), distribute_hexagons bbox s fuel = some l →
      l ≠ [] ∧ l.head? = some ⟨(bbox.1 + s, bbox.2.1 + s), s⟩ := by
  constructor
  · exact ⟨distributeFuel s bbox.1 bbox.2.2.1 bbox.2.2.2 bbox.1 bbox.2.1,
      distributeAux_isSome s bbox.1 bbox.2.2.1 bbox.2.2.2 hs _ bbox.1 bbox.2.1 true []
        (le_refl _)⟩
  · intro fuel l hrun
    obtain ⟨rest, hrest⟩ := distributeAux_head s bbox.1 bbox.2.2.1 bbox.2.2.2 fuel
      bbox.1 bbox.2.1 true [] l hrun
    rw [hrest]
    simp

/-- Witness for C10 on a degenerate bounding box smaller than one hexagon. -/
theorem distribute_hexagons_first_witness :
    (∃ fuel : ℕ, (distribute_hexagons (5, 5, 2, 1) 1 fuel).isSome) ∧
    ([(⟨(6, 6), 1⟩ : Hexagon)] ≠ [] ∧
      ([(⟨(6, 6), 1⟩ : Hexagon)]).head? = some ⟨((5:ℚ) + 1, (5:ℚ) + 1), 1⟩) := by
  have h := distribute_hexagons_first (5, 5, 2, 1) 1 (by norm_num)
  refine ⟨h.1, ?_⟩
  exact h.2 1 [⟨(6, 6), 1⟩] (by norm_num [distribute_hexagons, distributeAux])
